import Mathlib

/-!
Shallow embedding of `solver/llbsolver/solver.go` (moby/buildkit vendored in
docker-ce): the Solve orchestrator, its export and cache-export phases, the
vertex-wrapped phase runner (`inVertexContext`, `notifyStarted`,
`notifyCompleted`), the one-off progress marker (`oneOffProgress`) and the
status relay (`Solver.Status`).

Modelling conventions:
- External collaborators (the graph engine, the bridge's solve, the content
  exporter's `Export`, the cache exporter's `ExportTo`/`Finalize`, job
  creation) are oracles given as inputs; their failures are Go error values,
  embedded as `Except String`.
- Observable effects (progress writes, writer closes, exporter calls,
  scheduled reference releases, job discard) are recorded in a trace of
  `Event`s, in program order.  A Go `defer` appends its events at the return
  point, in LIFO order of registration.
- `go ref.Release(...)` — a detached, fire-and-forget task — is modelled as
  the single event of scheduling that release.
- `time.Now()` and `identity.NewID()`/`digest.FromBytes` are modelled by a
  threaded state `St` holding a clock and a fresh-identity counter.
- Go run-time panics (out-of-range indexing) are a distinguished error
  constructor `GoErr.panic`, never produced by any oracle.
-/

namespace LLBSolver

/-- Go errors as seen by the orchestrator: ordinary error values (`msg`) and
run-time panics (`panic`), which in Go would unwind rather than return. -/
inductive GoErr where
  | msg (s : String)
  | panic (s : String)
deriving DecidableEq, Repr

/-- The message carried by an error (`err.Error()` in Go). -/
def GoErr.message : GoErr → String
  | .msg s => s
  | .panic s => "runtime error: " ++ s

/-- Lift an external collaborator's outcome (always an ordinary Go error,
never a panic) into the orchestrator's error type. -/
def liftE {α : Type} : Except String α → Except GoErr α
  | .ok a => .ok a
  | .error s => .error (.msg s)

/-- `res.Sys()` of a solver result: either the expected worker backend
reference (`*worker.WorkerRef`, carrying its `ImmutableRef`, identified here
by a number) or a value of some other dynamic type (its type name kept for
the error message). -/
inductive Sys where
  | workerRef (immutableRef : Nat)
  | other (typeName : String)
deriving DecidableEq, Repr

/-- One `solver.CachedResult` held by a solve result: an identity used to
track its release, its `Sys()` value, and its ordered list of cache keys
(`CacheKeys()`), each identified by a number. -/
structure CachedResult where
  refId : Nat
  sys : Sys
  cacheKeys : List Nat
deriving DecidableEq, Repr

/-- The result returned by the bridge's solve: an optional primary reference
(`Ref`), an optional named-reference map (`Refs`, modelled as an association
list to keep iteration order explicit), and free-form metadata. -/
structure Result where
  ref : Option CachedResult
  refs : Option (List (String × Option CachedResult))
  metadata : List (String × List Nat)
deriving DecidableEq, Repr

/-- Modelled from the spec: `Result.EachRef` (defined outside this file's
source) visits "every content reference in the Result (primary first, then
each named reference)"; nil named entries hold no reference and are skipped.
This is the list of references visited, in that order. -/
def Result.eachRefList (r : Result) : List CachedResult :=
  r.ref.toList ++ (r.refs.getD []).filterMap (fun p => p.2)

/-- The `exporter.Source` structure handed to the content exporter: metadata,
the optional validated primary immutable ref, and the optional named map of
optional immutable refs (nil entries preserved). -/
structure Source where
  metadata : List (String × List Nat)
  ref : Option Nat
  refs : Option (List (String × Option Nat))
deriving DecidableEq, Repr

/-- The progress status written for a one-off marker (`progress.Status`):
start and completion timestamps, and an optional recorded error.  The
source's `oneOffProgress` closure has `// TODO: set error on status` and
never sets the error. -/
structure ProgStatus where
  started : Option Nat
  completed : Option Nat
  error : Option String
deriving DecidableEq, Repr

/-- A synthetic progress vertex (`client.Vertex`): identity digest, name,
timestamps, cached flag, error text (Go zero value: the empty string). -/
structure Vertex where
  digest : Nat
  name : String
  started : Option Nat
  completed : Option Nat
  cached : Bool
  error : String
deriving DecidableEq, Repr

/-- The converter passed in `solver.CacheExportOpt.Convert`; the source
always passes `workerRefConverter`. -/
inductive ConvertFn where
  | workerRefConverter
deriving DecidableEq, Repr

/-- `solver.CacheExportOpt`: the converter and the requested export mode. -/
structure CacheExportOpt where
  convert : ConvertFn
  mode : Nat
deriving DecidableEq, Repr

/-- Observable effects of one orchestrator call, in program order. -/
inductive Event where
  /-- `j.Discard()` ran (the deferred job cleanup). -/
  | jobDiscard
  /-- `go ref.Release(context.TODO())` was scheduled for this reference. -/
  | scheduleRelease (refId : Nat)
  /-- A vertex status record was written to the progress sink. -/
  | vertexWrite (v : Vertex)
  /-- A one-off progress marker status was written under this id. -/
  | progressWrite (id : String) (st : ProgStatus)
  /-- A progress writer was closed (tagged by the id it wrote under). -/
  | pwClose (id : String)
  /-- The content exporter's `Export` was called with this source. -/
  | exportCall (src : Source)
  /-- `ExportTo` was called on the cache exporter for this reference, with
  this cache key and options. -/
  | exportToCall (refId : Nat) (keyId : Nat) (opt : CacheExportOpt)
  /-- `e.Finalize(ctx)` was called on the cache exporter. -/
  | finalizeCall
  /-- A status record was streamed into the caller's channel (`Status`). -/
  | chanWrite (n : Nat)
deriving DecidableEq, Repr

/-- Threaded state standing in for `time.Now()` (a monotone clock) and
`identity.NewID()`/`digest.FromBytes` (a fresh-identity counter). -/
structure St where
  clock : Nat
  nextId : Nat
deriving DecidableEq, Repr

/-- A context, carrying progress metadata (key/value pairs such as the
"vertex" digest attached by `progress.WithMetadata`). -/
abbrev Ctx : Type := List (String × Nat)

/-- A phase function (the closure handed to `inVertexContext`): runs with
the derived child context, producing events, an outcome and a new state. -/
abbrev Phase : Type := St → Ctx → List Event × Except GoErr Unit × St

/-- `notifyStarted`: stamps the vertex started now, not completed, with the
given cached flag, and writes it (the writer it obtains is closed on
return). -/
def notifyStarted (st : St) (v : Vertex) (cached : Bool) :
    List Event × Vertex × St :=
  let now := st.clock
  let st := { st with clock := st.clock + 1 }
  let v := { v with started := some now, completed := none, cached := cached }
  ([.vertexWrite v, .pwClose (toString v.digest)], v, st)

/-- `notifyCompleted`: stamps the vertex completed now (backfilling a missing
start timestamp), sets the cached flag, records the error's message when one
is given, and writes it (the writer it obtains is closed on return). -/
def notifyCompleted (st : St) (v : Vertex) (err : Option GoErr) (cached : Bool) :
    List Event × Vertex × St :=
  let now := st.clock
  let st := { st with clock := st.clock + 1 }
  let v := { v with started := if v.started = none then some now else v.started }
  let v := { v with completed := some now, cached := cached }
  let v := match err with
    | some e => { v with error := e.message }
    | none => v
  ([.vertexWrite v, .pwClose (toString v.digest)], v, st)

/-- The error of an outcome, when there is one. -/
def errOpt {α : Type} : Except GoErr α → Option GoErr
  | .ok _ => none
  | .error e => some e

/-- `inVertexContext`: generates a fresh identity for a synthetic vertex,
derives a child context tagged with it, emits the started event, runs the
phase function with the child context, emits the completed event regardless
of the outcome, closes its progress writer (deferred), and returns the phase
function's error unchanged. -/
def inVertexContext (st : St) (ctx : Ctx) (name : String) (f : Phase) :
    List Event × Except GoErr Unit × St :=
  let d := st.nextId
  let st1 : St := { st with nextId := st.nextId + 1 }
  let v : Vertex :=
    { digest := d, name := name, started := none, completed := none
      cached := false, error := "" }
  let ctx1 : Ctx := ctx ++ [("vertex", d)]
  let r1 := notifyStarted st1 v false
  let rf := f r1.2.2 ctx1
  let r2 := notifyCompleted rf.2.2 r1.2.1 (errOpt rf.2.1) false
  (r1.1 ++ rf.1 ++ r2.1 ++ [.pwClose (toString d)], rf.2.1, r2.2.2)

/-- The id under which the cache-export preparation marker writes. -/
def prepareId : String := "preparing build cache for export"

/-- The first half of `oneOffProgress`: write a status with only the start
timestamp set, and hand back that status for the closure. -/
def oneOffProgressStart (st : St) (id : String) :
    List Event × ProgStatus × St :=
  let now := st.clock
  let st := { st with clock := st.clock + 1 }
  let ps : ProgStatus := { started := some now, completed := none, error := none }
  ([.progressWrite id ps], ps, st)

/-- The closure returned by `oneOffProgress`: stamp the status completed,
write it, close the writer, and return the given error unchanged.  The
source has `// TODO: set error on status`: the error is NOT recorded on the
written status. -/
def oneOffProgressDone (st : St) (id : String) (ps : ProgStatus)
    (err : Option GoErr) : List Event × Option GoErr × St :=
  let now := st.clock
  let st := { st with clock := st.clock + 1 }
  let ps := { ps with completed := some now }
  ([.progressWrite id ps, .pwClose id], err, st)

/-- `ExporterRequest`: an optional content exporter (carrying its `Name()`),
whether a cache exporter is configured, and the cache-export mode. -/
structure ExporterRequest where
  exporterName : Option String
  cacheExporter : Bool
  cacheExportMode : Nat
deriving DecidableEq, Repr

/-- Outcomes of the external collaborators for one `Solve` call:
`s.solver.NewJob`, the bridge's `Solve`, the content exporter's `Export`
(its response map on success), the cache exporter's `ExportTo` per reference
and its `Finalize`.  All are ordinary Go errors on failure. -/
structure SolveInputs where
  newJob : Except String Unit
  bridgeSolve : Except String Result
  exportResult : Except String (List (String × String))
  exportTo : Nat → Except String Unit
  finalize : Except String Unit

/-- `client.SolveResponse`: the exporter's key/value response (a nil Go map
reads as empty; modelled as a list of pairs, `[]` when no exporter ran). -/
structure SolveResponse where
  exporterResponse : List (String × String)
deriving DecidableEq, Repr

/-- The prefix of the error built by
`errors.Errorf("invalid reference: %T", res.Sys())`. -/
def invalidRefMsg : String := "invalid reference: "

/-- Validation of one reference for content export: its `Sys()` must be a
`*worker.WorkerRef`; its `ImmutableRef` is extracted, otherwise the call
fails with the invalid-reference error. -/
def checkRef (c : CachedResult) : Except GoErr Nat :=
  match c.sys with
  | .workerRef ir => .ok ir
  | .other t => .error (.msg (invalidRefMsg ++ t))

/-- Building `inp.Refs` from `res.Refs`: nil entries are passed through as
nil entries; non-nil entries are validated and their immutable refs kept; the
first invalid entry aborts the build. -/
def buildRefsMap : List (String × Option CachedResult) →
    Except GoErr (List (String × Option Nat))
  | [] => .ok []
  | (k, none) :: rest => (buildRefsMap rest).map (fun m => (k, none) :: m)
  | (k, some c) :: rest =>
    match checkRef c with
    | .error e => .error e
    | .ok ir => (buildRefsMap rest).map (fun m => (k, some ir) :: m)

/-- Building the `exporter.Source` for the content exporter (lines 105-129):
metadata copied; the primary ref validated when present; the named map built
when present. -/
def buildSource (res : Result) : Except GoErr Source :=
  match res.ref with
  | some c =>
    match checkRef c with
    | .error e => .error e
    | .ok ir =>
      match res.refs with
      | none => .ok { metadata := res.metadata, ref := some ir, refs := none }
      | some l =>
        match buildRefsMap l with
        | .error e => .error e
        | .ok m => .ok { metadata := res.metadata, ref := some ir, refs := some m }
  | none =>
    match res.refs with
    | none => .ok { metadata := res.metadata, ref := none, refs := none }
    | some l =>
      match buildRefsMap l with
      | .error e => .error e
      | .ok m => .ok { metadata := res.metadata, ref := none, refs := some m }

/-- One step of the cache-export loop (lines 143-148): take the FIRST cache
key of the reference — an unguarded `CacheKeys()[0]`, a run-time panic when
the list is empty — and call `ExportTo` with the worker-ref converter and the
requested mode. -/
def exportRefCache (inp : SolveInputs) (mode : Nat) (c : CachedResult) :
    List Event × Except GoErr Unit :=
  match c.cacheKeys.head? with
  | none => ([], .error (.panic "index out of range"))
  | some k =>
    ([.exportToCall c.refId k { convert := .workerRefConverter, mode := mode }],
      liftE (inp.exportTo c.refId))

/-- Modelled from the spec: `Result.EachRef` with a fallible callback (not
under src/) — "any failure in step (b) short-circuits remaining refs" — runs
the callback over the listed references in order, stopping at the first
error. -/
def runRefs (f : CachedResult → List Event × Except GoErr Unit) :
    List CachedResult → List Event × Except GoErr Unit
  | [] => ([], .ok ())
  | c :: rest =>
    let r := f c
    match r.2 with
    | .error e => (r.1, .error e)
    | .ok _ =>
      let r2 := runRefs f rest
      (r.1 ++ r2.1, r2.2)

/-- The closure run inside the "exporting cache" vertex (lines 141-153):
emit the preparation marker, export the first cache key of every reference,
complete the marker (on failure too, the error returned unchanged but not
recorded on the marker), then finalize the cache exporter. -/
def cacheExportPhase (inp : SolveInputs) (mode : Nat) (res : Result) : Phase :=
  fun st _ctx =>
    let r0 := oneOffProgressStart st prepareId
    let rr := runRefs (exportRefCache inp mode) res.eachRefList
    match rr.2 with
    | .error e =>
      let rd := oneOffProgressDone r0.2.2 prepareId r0.2.1 (some e)
      (r0.1 ++ rr.1 ++ rd.1, .error e, rd.2.2)
    | .ok _ =>
      let rd := oneOffProgressDone r0.2.2 prepareId r0.2.1 none
      (r0.1 ++ rr.1 ++ rd.1 ++ [.finalizeCall], liftE inp.finalize, rd.2.2)

/-- The closure run inside the exporter-named vertex (lines 131-134): call
`Export` with the built source; the response is captured outside, only the
error is returned. -/
def contentExportPhase (inp : SolveInputs) (src : Source) : Phase :=
  fun st _ctx =>
    ([.exportCall src], (liftE inp.exportResult).map (fun _ => ()), st)

/-- The deferred release of every reference in the Result (lines 96-101):
`go ref.Release(context.TODO())` is scheduled for each reference, primary
first, then each non-nil named reference. -/
def releaseEvents (res : Result) : List Event :=
  res.eachRefList.map (fun c => .scheduleRelease c.refId)

/-- The cache-export block of `Solve` (lines 139-157), given the events and
response accumulated so far: when a cache exporter is configured, run the
cache-export phase inside an "exporting cache" vertex; any error aborts. -/
def solveCacheBlock (inp : SolveInputs) (exp : ExporterRequest) (res : Result)
    (acc : List Event) (resp : List (String × String)) (st : St) :
    List Event × Except GoErr SolveResponse × St :=
  if exp.cacheExporter then
    let r := inVertexContext st [] "exporting cache"
      (cacheExportPhase inp exp.cacheExportMode res)
    match r.2.1 with
    | .error e => (acc ++ r.1, .error e, r.2.2)
    | .ok _ => (acc ++ r.1, .ok { exporterResponse := resp }, r.2.2)
  else
    (acc, .ok { exporterResponse := resp }, st)

/-- The body of `Solve` after a successful bridge solve (lines 103-161):
content export (validation, source building, exporter vertex) when a content
exporter is configured, then cache export when a cache exporter is
configured. -/
def solveBody (inp : SolveInputs) (exp : ExporterRequest) (res : Result)
    (st : St) : List Event × Except GoErr SolveResponse × St :=
  match exp.exporterName with
  | some name =>
    match buildSource res with
    | .error e => ([], .error e, st)
    | .ok src =>
      let r := inVertexContext st [] name (contentExportPhase inp src)
      match r.2.1 with
      | .error e => (r.1, .error e, r.2.2)
      | .ok _ =>
        let resp := match inp.exportResult with
          | .ok m => m
          | .error _ => []
        solveCacheBlock inp exp res r.1 resp r.2.2
  | none => solveCacheBlock inp exp res [] [] st

/-- `Solver.Solve` (lines 81-162): create the job (its discard deferred),
solve through the bridge (failure returns immediately, after the deferred
discard), defer the fire-and-forget release of every reference in the
Result, run content export and cache export, and return the aggregated
response.  The deferred blocks run LIFO at every return point: releases
first, then the job discard. -/
def Solve (inp : SolveInputs) (exp : ExporterRequest) :
    List Event × Except GoErr SolveResponse :=
  match inp.newJob with
  | .error e => ([], .error (.msg e))
  | .ok _ =>
    match inp.bridgeSolve with
    | .error e => ([Event.jobDiscard], .error (.msg e))
    | .ok res =>
      let r := solveBody inp exp res { clock := 0, nextId := 0 }
      (r.1 ++ releaseEvents res ++ [Event.jobDiscard], r.2.1)

/-- A live job as seen by the status relay: the status records it streams. -/
structure Job where
  statuses : List Nat
deriving DecidableEq, Repr

/-- Modelled from the spec: the engine's job registry lookup (`s.solver.Get`,
not under src/) — "fails with job not found if the Job has already been
discarded or never existed" — a lookup in the table of live jobs, failing
with a distinct not-found error. -/
def solverGet (jobs : List (String × Job)) (id : String) : Except GoErr Job :=
  match jobs.lookup id with
  | some j => .ok j
  | none => .error (.msg ("no such job " ++ id))

/-- `Solver.Status` (lines 164-170): look up the live job by id; a lookup
failure is returned unchanged before anything touches the caller's channel;
otherwise the job's status records are streamed into the channel. -/
def Status (jobs : List (String × Job)) (id : String) :
    List Event × Except GoErr Unit :=
  match solverGet jobs id with
  | .error e => ([], .error e)
  | .ok j => (j.statuses.map (fun n => .chanWrite n), .ok ())

/-! ## Event classifiers and basic facts -/

/-- Is this event the scheduling of a reference release? -/
def isRelease : Event → Bool
  | .scheduleRelease _ => true
  | _ => false

/-- Is this event a call to the cache exporter's `ExportTo`? -/
def isExportTo : Event → Bool
  | .exportToCall _ _ _ => true
  | _ => false

/-- Is this event a call to the content exporter's `Export`? -/
def isExportCall : Event → Bool
  | .exportCall _ => true
  | _ => false

/-- Is this event a vertex status write? -/
def isVertexWrite : Event → Bool
  | .vertexWrite _ => true
  | _ => false

/-- Events an export-like phase can emit: everything except job discard,
release scheduling and status-channel writes. -/
def phaseEvent : Event → Bool
  | .jobDiscard => false
  | .scheduleRelease _ => false
  | .chanWrite _ => false
  | _ => true

theorem mem_runRefs {P : Event → Bool}
    {f : CachedResult → List Event × Except GoErr Unit}
    (hf : ∀ c e, e ∈ (f c).1 → P e = true) :
    ∀ l e, e ∈ (runRefs f l).1 → P e = true := by
  intro l
  induction l with
  | nil => intro e he; simp [runRefs] at he
  | cons c rest ih =>
    intro e he
    simp only [runRefs] at he
    rcases hfc : (f c).2 with e0 | u
    · rw [hfc] at he
      exact hf c e he
    · rw [hfc] at he
      simp only [List.mem_append] at he
      rcases he with h | h
      · exact hf c e h
      · exact ih e h

theorem inVertexContext_events (st : St) (ctx : Ctx) (name : String) (f : Phase) :
    ∃ v1 v2 s, (inVertexContext st ctx name f).1 =
      [Event.vertexWrite v1, Event.pwClose s] ++
      (f { clock := st.clock + 1, nextId := st.nextId + 1 }
          (ctx ++ [("vertex", st.nextId)])).1 ++
      [Event.vertexWrite v2, Event.pwClose s, Event.pwClose s] := by
  rcases h : errOpt (f { clock := st.clock + 1, nextId := st.nextId + 1 }
      (ctx ++ [("vertex", st.nextId)])).2.1 with _ | e0
  · refine ⟨(⟨st.nextId, name, some st.clock, none, false, ""⟩ : Vertex),
      (⟨st.nextId, name, some st.clock,
        some (f { clock := st.clock + 1, nextId := st.nextId + 1 }
          (ctx ++ [("vertex", st.nextId)])).2.2.clock, false, ""⟩ : Vertex),
      toString st.nextId, ?_⟩
    simp [inVertexContext, notifyStarted, notifyCompleted, h]
  · refine ⟨(⟨st.nextId, name, some st.clock, none, false, ""⟩ : Vertex),
      (⟨st.nextId, name, some st.clock,
        some (f { clock := st.clock + 1, nextId := st.nextId + 1 }
          (ctx ++ [("vertex", st.nextId)])).2.2.clock, false, e0.message⟩ : Vertex),
      toString st.nextId, ?_⟩
    simp [inVertexContext, notifyStarted, notifyCompleted, h]

theorem phaseEvent_inVertexContext {st : St} {ctx : Ctx} {name : String}
    {f : Phase} (hf : ∀ st2 c2 e, e ∈ (f st2 c2).1 → phaseEvent e = true) :
    ∀ e ∈ (inVertexContext st ctx name f).1, phaseEvent e = true := by
  intro e he
  obtain ⟨v1, v2, s, hev⟩ := inVertexContext_events st ctx name f
  rw [hev] at he
  simp only [List.mem_append, List.mem_cons, List.not_mem_nil, or_false] at he
  rcases he with ((rfl | rfl) | h) | (rfl | rfl | rfl)
  · rfl
  · rfl
  · exact hf _ _ e h
  · rfl
  · rfl
  · rfl

theorem phaseEvent_exportRefCache {inp : SolveInputs} {mode : Nat} :
    ∀ c e, e ∈ (exportRefCache inp mode c).1 → phaseEvent e = true := by
  intro c e he
  simp only [exportRefCache] at he
  rcases h : c.cacheKeys.head? with _ | k
  · rw [h] at he; simp at he
  · rw [h] at he
    simp only [List.mem_singleton] at he
    subst he; rfl

theorem phaseEvent_cacheExportPhase {inp : SolveInputs} {mode : Nat}
    {res : Result} {st : St} {ctx : Ctx} :
    ∀ e ∈ (cacheExportPhase inp mode res st ctx).1, phaseEvent e = true := by
  intro e he
  simp only [cacheExportPhase, oneOffProgressStart, oneOffProgressDone] at he
  rcases h : (runRefs (exportRefCache inp mode) res.eachRefList).2 with e0 | u <;>
    rw [h] at he <;>
    simp only [List.mem_append, List.mem_cons, List.mem_singleton,
      List.not_mem_nil, or_false] at he
  · rcases he with (h1 | h1) | (h1 | h1)
    · subst h1; rfl
    · exact mem_runRefs (fun c e => phaseEvent_exportRefCache c e) _ e h1
    · subst h1; rfl
    · subst h1; rfl
  · rcases he with ((h1 | h1) | (h1 | h1)) | h1
    · subst h1; rfl
    · exact mem_runRefs (fun c e => phaseEvent_exportRefCache c e) _ e h1
    · subst h1; rfl
    · subst h1; rfl
    · subst h1; rfl

theorem phaseEvent_contentExportPhase {inp : SolveInputs} {src : Source}
    {st : St} {ctx : Ctx} :
    ∀ e ∈ (contentExportPhase inp src st ctx).1, phaseEvent e = true := by
  intro e he
  simp only [contentExportPhase, List.mem_singleton] at he
  subst he; rfl

theorem phaseEvent_solveCacheBlock {inp : SolveInputs} {exp : ExporterRequest}
    {res : Result} {acc : List Event} {resp : List (String × String)} {st : St}
    (hacc : ∀ e ∈ acc, phaseEvent e = true) :
    ∀ e ∈ (solveCacheBlock inp exp res acc resp st).1, phaseEvent e = true := by
  intro e he
  simp only [solveCacheBlock] at he
  rcases hce : exp.cacheExporter with _ | _ <;> rw [hce] at he <;> simp only [if_true, if_false, Bool.false_eq_true, if_neg, Bool.true_eq_false] at he
  · exact hacc e he
  · rcases h2 : (inVertexContext st [] "exporting cache"
        (cacheExportPhase inp exp.cacheExportMode res)).2.1 with e0 | u <;>
      rw [h2] at he <;> simp only [List.mem_append] at he <;>
      rcases he with h | h
    · exact hacc e h
    · exact phaseEvent_inVertexContext
        (fun st2 c2 e => phaseEvent_cacheExportPhase e) e h
    · exact hacc e h
    · exact phaseEvent_inVertexContext
        (fun st2 c2 e => phaseEvent_cacheExportPhase e) e h

theorem phaseEvent_solveBody {inp : SolveInputs} {exp : ExporterRequest}
    {res : Result} {st : St} :
    ∀ e ∈ (solveBody inp exp res st).1, phaseEvent e = true := by
  intro e he
  rcases hn : exp.exporterName with _ | name <;>
    simp only [solveBody, hn] at he
  · exact phaseEvent_solveCacheBlock (by simp) e he
  · rcases hbs : buildSource res with e0 | src <;>
      simp only [hbs] at he
    · simp at he
    · rcases h2 : (inVertexContext st [] name (contentExportPhase inp src)).2.1
        with e1 | u <;> simp only [h2] at he
      · exact phaseEvent_inVertexContext
          (fun st2 c2 e => phaseEvent_contentExportPhase e) e he
      · refine phaseEvent_solveCacheBlock ?_ e he
        intro e1 he1
        exact phaseEvent_inVertexContext
          (fun st2 c2 e => phaseEvent_contentExportPhase e) e1 he1

theorem phaseEvent_not_release {e : Event} (h : phaseEvent e = true) :
    isRelease e = false := by
  cases e <;> simp [phaseEvent, isRelease] at h ⊢

theorem phaseEvent_not_discard {e : Event} (h : phaseEvent e = true) :
    e ≠ Event.jobDiscard := by
  cases e <;> simp [phaseEvent] at h ⊢

theorem filter_inVertexContext (p : Event → Bool)
    (hv : ∀ v, p (.vertexWrite v) = false) (hc : ∀ s, p (.pwClose s) = false)
    (st : St) (ctx : Ctx) (name : String) (f : Phase) :
    ((inVertexContext st ctx name f).1).filter p =
      ((f { clock := st.clock + 1, nextId := st.nextId + 1 }
        (ctx ++ [("vertex", st.nextId)])).1).filter p := by
  obtain ⟨v1, v2, s, hev⟩ := inVertexContext_events st ctx name f
  rw [hev]
  simp [List.filter_append, List.filter_cons, hv, hc]

/-! ## C1, C6, C7, C8 -/

/-- C1: for every call to `Solve` in which the bridge's solve step succeeds
and returns a Result, the (asynchronous, fire-and-forget) release of every
content reference held in that Result — the primary reference and each named
reference — is scheduled exactly once, on every exit path of the call: the
release events in the trace are exactly `releaseEvents res`, one per held
reference, whatever the outcome of content export or cache export. -/
theorem solve_schedules_each_release_once
    (inp : SolveInputs) (exp : ExporterRequest) (res : Result)
    (hj : inp.newJob = .ok ()) (hs : inp.bridgeSolve = .ok res) :
    ((Solve inp exp).1).filter isRelease = releaseEvents res := by
  simp only [Solve, hj, hs]
  rw [List.filter_append, List.filter_append]
  have h1 : ((solveBody inp exp res { clock := 0, nextId := 0 }).1).filter
      isRelease = [] := by
    rw [List.filter_eq_nil_iff]
    intro e he
    rw [phaseEvent_not_release (phaseEvent_solveBody e he)]
    simp
  have h2 : (releaseEvents res).filter isRelease = releaseEvents res := by
    rw [List.filter_eq_self]
    intro e he
    simp only [releaseEvents, List.mem_map] at he
    obtain ⟨c, _, rfl⟩ := he
    rfl
  rw [h1, h2]
  simp [isRelease, List.filter]

/-- C6: for every call to `Solve` with neither a content exporter nor a
cache exporter configured, when the solve step succeeds the call returns an
empty response map and no error, and the trace holds only the deferred
releases and the job discard — in particular no export-phase vertex. -/
theorem solve_no_exporters_empty_response
    (inp : SolveInputs) (exp : ExporterRequest) (res : Result)
    (hj : inp.newJob = .ok ()) (hs : inp.bridgeSolve = .ok res)
    (hn : exp.exporterName = none) (hc : exp.cacheExporter = false) :
    Solve inp exp =
      (releaseEvents res ++ [Event.jobDiscard],
        .ok { exporterResponse := [] }) := by
  simp [Solve, hj, hs, solveBody, hn, solveCacheBlock, hc]

/-- C7: for every call to `Solve` in which job creation succeeds, the job
discard runs exactly at the end of every exit path; in particular when the
bridge's solve step errs, `Solve` returns that error and the trace is
exactly the job discard. -/
theorem solve_discard_every_exit (inp : SolveInputs) (exp : ExporterRequest)
    (hj : inp.newJob = .ok ()) :
    (∃ pre, (Solve inp exp).1 = pre ++ [Event.jobDiscard] ∧
      Event.jobDiscard ∉ pre) ∧
    (∀ e, inp.bridgeSolve = .error e →
      Solve inp exp = ([Event.jobDiscard], .error (.msg e))) := by
  constructor
  · rcases hb : inp.bridgeSolve with e | res
    · exact ⟨[], by simp [Solve, hj, hb]⟩
    · refine ⟨(solveBody inp exp res { clock := 0, nextId := 0 }).1 ++
        releaseEvents res, ?_, ?_⟩
      · simp [Solve, hj, hb]
      · intro hmem
        rw [List.mem_append] at hmem
        rcases hmem with h | h
        · exact phaseEvent_not_discard (phaseEvent_solveBody _ h) rfl
        · simp [releaseEvents, List.mem_map] at h
  · intro e hb
    simp [Solve, hj, hb]

/-- C8: for every `Status` call whose job id is not among the live jobs
(never submitted or already discarded), the call fails with the lookup's
distinct not-found error, returned unchanged, and writes nothing to the
caller's channel. -/
theorem status_not_found (jobs : List (String × Job)) (id : String)
    (h : jobs.lookup id = none) :
    Status jobs id = ([], .error (.msg ("no such job " ++ id))) ∧
    (Status jobs id).2 = (solverGet jobs id).map (fun _ => ()) := by
  constructor <;> simp [Status, solverGet, h, Except.map]

/-! ## C5, C9: reference validation for content export -/

/-- Does this (possibly nil) reference entry pass the worker-backend check?
Nil entries are never checked. -/
def sysOk : Option CachedResult → Bool
  | none => true
  | some c =>
    match c.sys with
    | .workerRef _ => true
    | .other _ => false

/-- The immutable ref behind a reference, when its `Sys()` is a worker
ref. -/
def refIR (c : CachedResult) : Option Nat :=
  match c.sys with
  | .workerRef ir => some ir
  | .other _ => none

/-- Every reference held by the Result (primary and named, nil entries
excepted) originates from the expected worker backend type. -/
def allRefsWorker (res : Result) : Bool :=
  sysOk res.ref && (res.refs.getD []).all (fun p => sysOk p.2)

theorem buildRefsMap_ok (l : List (String × Option CachedResult))
    (h : ∀ p ∈ l, sysOk p.2 = true) :
    buildRefsMap l = .ok (l.map (fun p => (p.1, p.2.bind refIR))) := by
  induction l with
  | nil => rfl
  | cons p rest ih =>
    have ihr := ih (fun q hq => h q (by simp [hq]))
    obtain ⟨k, c⟩ := p
    rcases c with _ | c
    · simp [buildRefsMap, ihr, Except.map]
    · have hc := h (k, some c) (by simp)
      rcases hsys : c.sys with ir | t
      · simp [buildRefsMap, checkRef, hsys, ihr, Except.map, refIR]
      · simp [sysOk, hsys] at hc

theorem buildRefsMap_err (l : List (String × Option CachedResult))
    (h : ¬ ∀ p ∈ l, sysOk p.2 = true) :
    ∃ t, buildRefsMap l = .error (.msg (invalidRefMsg ++ t)) := by
  induction l with
  | nil => exact absurd (by simp) h
  | cons p rest ih =>
    by_cases hp : sysOk p.2 = true
    · have hrest : ¬ ∀ q ∈ rest, sysOk q.2 = true := by
        intro hr
        exact h (by
          intro q hq
          rcases List.mem_cons.mp hq with rfl | hq2
          · exact hp
          · exact hr q hq2)
      obtain ⟨t, ht⟩ := ih hrest
      obtain ⟨k, c⟩ := p
      rcases c with _ | c
      · exact ⟨t, by simp [buildRefsMap, ht, Except.map]⟩
      · rcases hsys : c.sys with ir | t2
        · exact ⟨t, by simp [buildRefsMap, checkRef, hsys, ht, Except.map]⟩
        · simp [sysOk, hsys] at hp
    · obtain ⟨k, c⟩ := p
      rcases c with _ | c
      · simp [sysOk] at hp
      · rcases hsys : c.sys with ir | t2
        · simp [sysOk, hsys] at hp
        · exact ⟨t2, by simp [buildRefsMap, checkRef, hsys]⟩

theorem buildSource_ok (res : Result) (h : allRefsWorker res = true) :
    buildSource res = .ok
      { metadata := res.metadata, ref := res.ref.bind refIR,
        refs := res.refs.map
          (fun l => l.map (fun p => (p.1, p.2.bind refIR))) } := by
  rw [allRefsWorker, Bool.and_eq_true] at h
  obtain ⟨hr, hl⟩ := h
  have hall : ∀ p ∈ res.refs.getD [], sysOk p.2 = true :=
    List.all_eq_true.mp hl
  rcases href : res.ref with _ | c
  · rcases hrefs : res.refs with _ | l
    · simp [buildSource, href, hrefs]
    · rw [hrefs] at hall
      simp [buildSource, href, hrefs, buildRefsMap_ok l hall]
  · rw [href] at hr
    rcases hsys : c.sys with ir | t
    · rcases hrefs : res.refs with _ | l
      · simp [buildSource, href, hrefs, checkRef, hsys, refIR]
      · rw [hrefs] at hall
        simp [buildSource, href, hrefs, checkRef, hsys, refIR,
          buildRefsMap_ok l hall]
    · simp [sysOk, hsys] at hr

theorem buildSource_err (res : Result) (h : allRefsWorker res = false) :
    ∃ t, buildSource res = .error (.msg (invalidRefMsg ++ t)) := by
  rcases href : res.ref with _ | c
  · have hl : ¬ ∀ p ∈ res.refs.getD [], sysOk p.2 = true := by
      intro hall
      rw [allRefsWorker, href] at h
      rw [List.all_eq_true.mpr hall] at h
      simp [sysOk] at h
    rcases hrefs : res.refs with _ | l
    · rw [hrefs] at hl; simp at hl
    · rw [hrefs] at hl
      obtain ⟨t, ht⟩ := buildRefsMap_err l hl
      exact ⟨t, by simp [buildSource, href, hrefs, ht]⟩
  · rcases hsys : c.sys with ir | t
    · have hl : ¬ ∀ p ∈ res.refs.getD [], sysOk p.2 = true := by
        intro hall
        rw [allRefsWorker, href] at h
        rw [List.all_eq_true.mpr hall] at h
        simp [sysOk, hsys] at h
      rcases hrefs : res.refs with _ | l
      · rw [hrefs] at hl; simp at hl
      · rw [hrefs] at hl
        obtain ⟨t, ht⟩ := buildRefsMap_err l hl
        exact ⟨t, by simp [buildSource, href, hrefs, checkRef, hsys, ht]⟩
    · exact ⟨t, by simp [buildSource, href, checkRef, hsys]⟩

/-- C5: for every call to `Solve` with a content exporter supplied, if the
primary reference or a non-nil named reference does not originate from the
expected worker backend type, `Solve` fails with the invalid-reference error
and no export attempt is made: no exporter `Export` call and no export
vertex appears in the trace. -/
theorem solve_invalid_ref_type
    (inp : SolveInputs) (exp : ExporterRequest) (res : Result) (name : String)
    (hj : inp.newJob = .ok ()) (hs : inp.bridgeSolve = .ok res)
    (hexp : exp.exporterName = some name)
    (hbad : allRefsWorker res = false) :
    (∃ t, (Solve inp exp).2 = .error (.msg (invalidRefMsg ++ t))) ∧
    ((Solve inp exp).1).filter isExportCall = [] ∧
    ((Solve inp exp).1).filter isVertexWrite = [] := by
  obtain ⟨t, ht⟩ := buildSource_err res hbad
  have hbody : solveBody inp exp res { clock := 0, nextId := 0 } =
      ([], .error (.msg (invalidRefMsg ++ t)), { clock := 0, nextId := 0 }) := by
    simp [solveBody, hexp, ht]
  have htr : (Solve inp exp).1 = releaseEvents res ++ [Event.jobDiscard] := by
    simp [Solve, hj, hs, hbody]
  refine ⟨⟨t, by simp [Solve, hj, hs, hbody]⟩, ?_, ?_⟩ <;>
    rw [htr, List.filter_eq_nil_iff] <;> intro e he <;>
    simp only [List.mem_append, List.mem_singleton, releaseEvents,
      List.mem_map] at he <;>
    rcases he with ⟨c, _, rfl⟩ | rfl <;> simp [isExportCall, isVertexWrite]

theorem exportTo_exportRefCache {inp : SolveInputs} {mode : Nat} :
    ∀ c e, e ∈ (exportRefCache inp mode c).1 → isExportTo e = true := by
  intro c e he
  rcases h : c.cacheKeys.head? with _ | k
  · simp [exportRefCache, h] at he
  · simp only [exportRefCache, h, List.mem_singleton] at he
    subst he; rfl

/-- Dropping the release-tail of a `Solve` trace under a filter that keeps
neither release schedulings nor the job discard. -/
theorem filter_tail_nil (p : Event → Bool)
    (hrel : ∀ n, p (.scheduleRelease n) = false) (hd : p .jobDiscard = false)
    (res : Result) :
    (releaseEvents res ++ [Event.jobDiscard]).filter p = [] := by
  rw [List.filter_eq_nil_iff]
  intro e he
  simp only [List.mem_append, List.mem_singleton, releaseEvents,
    List.mem_map] at he
  rcases he with ⟨c, _, rfl⟩ | rfl
  · simp [hrel]
  · simp [hd]

/-- Filtering the events of a cache-export vertex down to the `runRefs`
events, for filters blind to vertex writes, progress writes, closes and the
finalize call. -/
theorem filter_cache_vertex (p : Event → Bool)
    (hv : ∀ v, p (.vertexWrite v) = false) (hc : ∀ s, p (.pwClose s) = false)
    (hw : ∀ i ps, p (.progressWrite i ps) = false)
    (hfin : p .finalizeCall = false)
    (st : St) (ctx : Ctx) (nm : String) (inp : SolveInputs) (mode : Nat)
    (res : Result) :
    ((inVertexContext st ctx nm (cacheExportPhase inp mode res)).1).filter p =
      ((runRefs (exportRefCache inp mode) res.eachRefList).1).filter p := by
  rw [filter_inVertexContext p hv hc]
  rcases h : (runRefs (exportRefCache inp mode) res.eachRefList).2 with e | u <;>
    simp [cacheExportPhase, oneOffProgressStart, oneOffProgressDone, h,
      List.filter_append, List.filter_cons, hw, hc, hfin]

theorem filter_isExportCall_cacheV (st : St) (ctx : Ctx) (nm : String)
    (inp : SolveInputs) (mode : Nat) (res : Result) :
    ((inVertexContext st ctx nm (cacheExportPhase inp mode res)).1).filter
      isExportCall = [] := by
  rw [filter_cache_vertex isExportCall (fun v => rfl) (fun s => rfl)
    (fun i ps => rfl) rfl]
  rw [List.filter_eq_nil_iff]
  intro e he
  have h2 := mem_runRefs exportTo_exportRefCache _ e he
  cases e <;> simp [isExportTo, isExportCall] at h2 ⊢

/-- C9: when a content exporter is supplied and the named-reference map
holds a nil entry, `Solve` does not fail on that entry: with every non-nil
reference of the expected worker type, validation succeeds, the nil entry is
passed through unchanged as a nil entry of the export source's named map,
and that source is handed to the exporter's `Export`. -/
theorem solve_nil_named_ref_passthrough
    (inp : SolveInputs) (exp : ExporterRequest) (res : Result) (name : String)
    (l : List (String × Option CachedResult))
    (hj : inp.newJob = .ok ()) (hs : inp.bridgeSolve = .ok res)
    (hexp : exp.exporterName = some name) (hrefs : res.refs = some l)
    (hok : allRefsWorker res = true) :
    buildSource res = .ok
      { metadata := res.metadata, ref := res.ref.bind refIR,
        refs := some (l.map (fun p => (p.1, p.2.bind refIR))) } ∧
    (∀ k, (k, (none : Option CachedResult)) ∈ l →
      (k, (none : Option Nat)) ∈ l.map (fun p => (p.1, p.2.bind refIR))) ∧
    (∀ src, buildSource res = .ok src →
      ((Solve inp exp).1).filter isExportCall = [.exportCall src]) := by
  have hbs := buildSource_ok res hok
  rw [hrefs] at hbs
  simp only [Option.map] at hbs
  refine ⟨hbs, ?_, ?_⟩
  · intro k hk
    exact List.mem_map.mpr ⟨(k, none), hk, rfl⟩
  · intro src hsrc
    have hfc : ∀ st2 ctx2, ((inVertexContext st2 ctx2 name
        (contentExportPhase inp src)).1).filter isExportCall =
        [.exportCall src] := by
      intro st2 ctx2
      rw [filter_inVertexContext isExportCall (fun v => rfl) (fun s => rfl)]
      rfl
    simp only [Solve, hj, hs]
    rw [List.append_assoc, List.filter_append,
      filter_tail_nil isExportCall (fun n => rfl) rfl res, List.append_nil]
    simp only [solveBody, hexp, hsrc]
    rcases hout : (inVertexContext { clock := 0, nextId := 0 } [] name
        (contentExportPhase inp src)).2.1 with e1 | u <;>
      simp only [hout]
    · exact hfc _ _
    · simp only [solveCacheBlock]
      rcases hce : exp.cacheExporter with _ | _
      · simp only [Bool.false_eq_true, if_neg, if_false]
        exact hfc _ _
      · simp only [if_true]
        rcases hcv : (inVertexContext (inVertexContext { clock := 0, nextId := 0 }
            [] name (contentExportPhase inp src)).2.2 [] "exporting cache"
            (cacheExportPhase inp exp.cacheExportMode res)).2.1 with e2 | u2 <;>
          simp only [hcv] <;>
          rw [List.filter_append, hfc _ _, filter_isExportCall_cacheV,
            List.append_nil]

/-! ## C2, C10: the cache-export loop -/

/-- Did this orchestrator-level step succeed? -/
def isOkE {α : Type} : Except GoErr α → Bool
  | .ok _ => true
  | .error _ => false

/-- Did this external call succeed? -/
def isOkS {α : Type} : Except String α → Bool
  | .ok _ => true
  | .error _ => false

/-- The condition under which a `Solve` call reaches the cache-export block:
no content exporter, or reference validation and the exporter's `Export`
both succeeded. -/
def contentPhaseOk (inp : SolveInputs) (exp : ExporterRequest)
    (res : Result) : Bool :=
  match exp.exporterName with
  | none => true
  | some _ => isOkE (buildSource res) && isOkS inp.exportResult

/-- The outcome of the content-export vertex is the exporter's outcome. -/
theorem contentV_outcome (st : St) (ctx : Ctx) (nm : String)
    (inp : SolveInputs) (src : Source) :
    (inVertexContext st ctx nm (contentExportPhase inp src)).2.1 =
      (liftE inp.exportResult).map (fun _ => ()) := by
  simp [inVertexContext, notifyStarted, notifyCompleted, contentExportPhase]

/-- The outcome of the cache-export vertex: the first `ExportTo` failure, or
else the `Finalize` outcome. -/
theorem cacheV_outcome (st : St) (ctx : Ctx) (nm : String)
    (inp : SolveInputs) (mode : Nat) (res : Result) :
    (inVertexContext st ctx nm (cacheExportPhase inp mode res)).2.1 =
      (match (runRefs (exportRefCache inp mode) res.eachRefList).2 with
        | .error e => .error e
        | .ok _ => liftE inp.finalize) := by
  rcases h : (runRefs (exportRefCache inp mode) res.eachRefList).2
      with e | u <;>
    simp [inVertexContext, notifyStarted, notifyCompleted, cacheExportPhase,
      oneOffProgressStart, oneOffProgressDone, h]

theorem countP_exportRefCache_le (inp : SolveInputs) (mode : Nat)
    (c : CachedResult) :
    ((exportRefCache inp mode c).1).countP isExportTo ≤ 1 := by
  rcases h : c.cacheKeys.head? with _ | k <;>
    simp [exportRefCache, h, List.countP_cons, isExportTo]

theorem countP_runRefs_le (inp : SolveInputs) (mode : Nat) :
    ∀ l : List CachedResult,
      ((runRefs (exportRefCache inp mode) l).1).countP isExportTo ≤
        l.length := by
  intro l
  induction l with
  | nil => simp [runRefs]
  | cons c rest ih =>
    have h1 := countP_exportRefCache_le inp mode c
    simp only [runRefs]
    rcases h2 : (exportRefCache inp mode c).2 with e | u
    · simp only [List.length_cons]
      omega
    · rw [List.countP_append]
      simp only [List.length_cons]
      omega

theorem runRefs_all_ok (inp : SolveInputs) (mode : Nat)
    (l : List CachedResult) (hk : ∀ c ∈ l, c.cacheKeys ≠ [])
    (he : ∀ c ∈ l, inp.exportTo c.refId = .ok ()) :
    runRefs (exportRefCache inp mode) l =
      (l.map (fun c => .exportToCall c.refId c.cacheKeys.headI
        { convert := .workerRefConverter, mode := mode }), .ok ()) := by
  induction l with
  | nil => rfl
  | cons c rest ih =>
    have hk1 := hk c (by simp)
    have he1 := he c (by simp)
    have ihr := ih (fun d hd => hk d (by simp [hd]))
      (fun d hd => he d (by simp [hd]))
    rcases hck : c.cacheKeys with _ | ⟨k, ks⟩
    · exact absurd hck hk1
    · simp [runRefs, exportRefCache, hck, liftE, he1, ihr]

theorem filter_isExportTo_contentV (st : St) (ctx : Ctx) (nm : String)
    (inp : SolveInputs) (src : Source) :
    ((inVertexContext st ctx nm (contentExportPhase inp src)).1).filter
      isExportTo = [] := by
  rw [filter_inVertexContext isExportTo (fun v => rfl) (fun s => rfl)]
  rfl

theorem filter_isExportTo_runRefs (inp : SolveInputs) (mode : Nat)
    (l : List CachedResult) :
    ((runRefs (exportRefCache inp mode) l).1).filter isExportTo =
      (runRefs (exportRefCache inp mode) l).1 := by
  rw [List.filter_eq_self]
  intro e he
  exact mem_runRefs exportTo_exportRefCache _ e he

theorem filter_isExportTo_solveBody (inp : SolveInputs)
    (exp : ExporterRequest) (res : Result) (st : St)
    (hce : exp.cacheExporter = true) :
    (((solveBody inp exp res st).1).filter isExportTo =
      ((runRefs (exportRefCache inp exp.cacheExportMode)
        res.eachRefList).1).filter isExportTo ∨
     ((solveBody inp exp res st).1).filter isExportTo = []) ∧
    (contentPhaseOk inp exp res = true →
      ((solveBody inp exp res st).1).filter isExportTo =
      ((runRefs (exportRefCache inp exp.cacheExportMode)
        res.eachRefList).1).filter isExportTo) := by
  rcases hn : exp.exporterName with _ | name
  · have hcache : ((solveBody inp exp res st).1).filter isExportTo =
        ((runRefs (exportRefCache inp exp.cacheExportMode)
          res.eachRefList).1).filter isExportTo := by
      simp only [solveBody, hn, solveCacheBlock, hce, if_true]
      rcases hcv : (inVertexContext st [] "exporting cache"
          (cacheExportPhase inp exp.cacheExportMode res)).2.1 with e2 | u2 <;>
        simp only [hcv, List.nil_append] <;>
        exact filter_cache_vertex isExportTo (fun v => rfl) (fun s => rfl)
          (fun i ps => rfl) rfl _ _ _ _ _ _
    exact ⟨Or.inl hcache, fun _ => hcache⟩
  · rcases hbs : buildSource res with e0 | src
    · have hnil : ((solveBody inp exp res st).1).filter isExportTo = [] := by
        simp [solveBody, hn, hbs]
      refine ⟨Or.inr hnil, ?_⟩
      intro hcp
      rw [contentPhaseOk, hn, hbs] at hcp
      simp [isOkE] at hcp
    · rcases hout : (inVertexContext st [] name
          (contentExportPhase inp src)).2.1 with e1 | u
      · have hnil : ((solveBody inp exp res st).1).filter isExportTo = [] := by
          simp only [solveBody, hn, hbs, hout]
          exact filter_isExportTo_contentV _ _ _ _ _
        refine ⟨Or.inr hnil, ?_⟩
        intro hcp
        rw [contentPhaseOk, hn, hbs] at hcp
        rcases her : inp.exportResult with s2 | m
        · rw [her] at hcp; simp [isOkE, isOkS] at hcp
        · rw [contentV_outcome, her] at hout
          simp [liftE, Except.map] at hout
      · have hcache : ((solveBody inp exp res st).1).filter isExportTo =
            ((runRefs (exportRefCache inp exp.cacheExportMode)
              res.eachRefList).1).filter isExportTo := by
          simp only [solveBody, hn, hbs, hout, solveCacheBlock, hce, if_true]
          rcases hcv : (inVertexContext (inVertexContext st [] name
              (contentExportPhase inp src)).2.2 [] "exporting cache"
              (cacheExportPhase inp exp.cacheExportMode res)).2.1
              with e2 | u2 <;>
            simp only [hcv] <;>
            rw [List.filter_append, filter_isExportTo_contentV,
              List.nil_append] <;>
            exact filter_cache_vertex isExportTo (fun v => rfl) (fun s => rfl)
              (fun i ps => rfl) rfl _ _ _ _ _ _
        exact ⟨Or.inl hcache, fun _ => hcache⟩

/-- C2: for every call to `Solve` with a cache exporter configured whose
Result holds references that each carry at least one cache key, the trace
never holds more `ExportTo` calls than references; and when the call reaches
the cache-export block and every `ExportTo` succeeds, the `ExportTo` calls
are exactly one per reference, in order, each using only that reference's
FIRST cache key, the worker-reference converter and the requested export
mode. -/
theorem solve_cache_export_calls (inp : SolveInputs) (exp : ExporterRequest)
    (res : Result) (hj : inp.newJob = .ok ())
    (hs : inp.bridgeSolve = .ok res) (hce : exp.cacheExporter = true)
    (hk : ∀ c ∈ res.eachRefList, c.cacheKeys ≠ []) :
    ((Solve inp exp).1).countP isExportTo ≤ res.eachRefList.length ∧
    (contentPhaseOk inp exp res = true →
      (∀ c ∈ res.eachRefList, inp.exportTo c.refId = .ok ()) →
      ((Solve inp exp).1).filter isExportTo =
        res.eachRefList.map (fun c => .exportToCall c.refId c.cacheKeys.headI
          { convert := .workerRefConverter, mode := exp.cacheExportMode })) := by
  have htail : ((Solve inp exp).1).filter isExportTo =
      ((solveBody inp exp res { clock := 0, nextId := 0 }).1).filter
        isExportTo := by
    simp only [Solve, hj, hs]
    rw [List.append_assoc, List.filter_append,
      filter_tail_nil isExportTo (fun n => rfl) rfl res, List.append_nil]
  obtain ⟨hdisj, hok2⟩ :=
    filter_isExportTo_solveBody inp exp res { clock := 0, nextId := 0 } hce
  constructor
  · rw [List.countP_eq_length_filter, htail]
    rcases hdisj with h | h <;> rw [h]
    · have hle := countP_runRefs_le inp exp.cacheExportMode res.eachRefList
      rw [List.countP_eq_length_filter] at hle
      exact hle
    · simp
  · intro hcp hexports
    rw [htail, hok2 hcp,
      runRefs_all_ok inp exp.cacheExportMode res.eachRefList hk hexports]
    exact List.filter_eq_self.mpr (by
      intro e he
      obtain ⟨c, _, rfl⟩ := List.mem_map.mp he
      rfl)

/-- C10: the cache-export loop reads the first element of each reference's
cache-key list with no emptiness guard; under the precondition that every
reference holds at least one key the access never yields the out-of-range
panic, while a reference with an empty key list makes the loop step produce
exactly that panic (undefined behaviour — a run-time panic — in Go). -/
theorem cacheKeys_first_access (inp : SolveInputs) (mode : Nat)
    (refs : List CachedResult) (hk : ∀ c ∈ refs, c.cacheKeys ≠ []) :
    (∀ s, (runRefs (exportRefCache inp mode) refs).2 ≠
      .error (.panic s)) ∧
    exportRefCache inp mode { refId := 0, sys := .workerRef 0, cacheKeys := [] }
      = ([], .error (.panic ("index out of range"))) := by
  have main : ∀ l : List CachedResult, (∀ c ∈ l, c.cacheKeys ≠ []) →
      ∀ s, (runRefs (exportRefCache inp mode) l).2 ≠ .error (.panic s) := by
    intro l
    induction l with
    | nil => intro _ s h; simp [runRefs] at h
    | cons c rest ih =>
      intro hk2 s h
      rcases hck : c.cacheKeys with _ | ⟨k, ks⟩
      · exact hk2 c (by simp) hck
      · simp only [runRefs, exportRefCache, hck, List.head?] at h
        rcases het : inp.exportTo c.refId with s2 | u
        · rw [het] at h
          simp [liftE] at h
        · rw [het] at h
          simp only [liftE] at h
          exact ih (fun d hd => hk2 d (by simp [hd])) s h
  exact ⟨main refs hk, rfl⟩

/-! ## C3: failure during cache export -/

theorem runRefs_fail (inp : SolveInputs) (mode : Nat)
    (pre post : List CachedResult) (c : CachedResult) (s : String)
    (hpre : ∀ d ∈ pre, inp.exportTo d.refId = .ok ())
    (hprek : ∀ d ∈ pre, d.cacheKeys ≠ []) (hck : c.cacheKeys ≠ [])
    (hfail : inp.exportTo c.refId = .error s) :
    runRefs (exportRefCache inp mode) (pre ++ c :: post) =
      ((pre ++ [c]).map (fun d => .exportToCall d.refId d.cacheKeys.headI
        { convert := .workerRefConverter, mode := mode }),
       .error (.msg s)) := by
  induction pre with
  | nil =>
    rcases hck2 : c.cacheKeys with _ | ⟨k, ks⟩
    · exact absurd hck2 hck
    · simp [runRefs, exportRefCache, hck2, liftE, hfail]
  | cons d rest ih =>
    have hd1 := hpre d (by simp)
    have hdk := hprek d (by simp)
    have ihr := ih (fun d2 hd2 => hpre d2 (by simp [hd2]))
      (fun d2 hd2 => hprek d2 (by simp [hd2]))
    rcases hdk2 : d.cacheKeys with _ | ⟨k, ks⟩
    · exact absurd hdk2 hdk
    · simp [runRefs, exportRefCache, hdk2, liftE, hd1, ihr]

/-- When the cache-export block runs and the reference loop errs, `Solve`
returns that error. -/
theorem solve_cache_error (inp : SolveInputs) (exp : ExporterRequest)
    (res : Result) (e : GoErr) (hj : inp.newJob = .ok ())
    (hs : inp.bridgeSolve = .ok res) (hce : exp.cacheExporter = true)
    (hcp : contentPhaseOk inp exp res = true)
    (hrr : (runRefs (exportRefCache inp exp.cacheExportMode)
      res.eachRefList).2 = .error e) :
    (Solve inp exp).2 = .error e := by
  simp only [Solve, hj, hs]
  rcases hn : exp.exporterName with _ | name
  · have hcv := cacheV_outcome { clock := 0, nextId := 0 } [] "exporting cache"
      inp exp.cacheExportMode res
    rw [hrr] at hcv
    simp only [solveBody, hn, solveCacheBlock, hce, if_true, hcv]
  · rcases hbs : buildSource res with e0 | src
    · rw [contentPhaseOk, hn, hbs] at hcp
      simp [isOkE] at hcp
    · rw [contentPhaseOk, hn, hbs] at hcp
      rcases her : inp.exportResult with s2 | m
      · rw [her] at hcp; simp [isOkE, isOkS] at hcp
      · have hout := contentV_outcome { clock := 0, nextId := 0 } [] name inp src
        rw [her] at hout
        simp only [liftE, Except.map] at hout
        have hcv := cacheV_outcome (inVertexContext { clock := 0, nextId := 0 }
          [] name (contentExportPhase inp src)).2.2 [] "exporting cache"
          inp exp.cacheExportMode res
        rw [hrr] at hcv
        simp only [solveBody, hn, hbs, hout, solveCacheBlock, hce, if_true, hcv]

/-- The writer of the preparation marker is closed exactly once by the
cache-export phase, on every outcome. -/
theorem cacheExportPhase_closes_marker (inp : SolveInputs) (mode : Nat)
    (res : Result) (st : St) (ctx : Ctx) :
    ((cacheExportPhase inp mode res st ctx).1).countP
      (fun e => e = .pwClose prepareId) = 1 := by
  have hmem : ∀ a ∈ (runRefs (exportRefCache inp mode) res.eachRefList).1,
      ¬ a = Event.pwClose prepareId := by
    intro a ha
    have h2 := mem_runRefs exportTo_exportRefCache _ a ha
    cases a <;> simp [isExportTo] at h2 ⊢
  simp only [prepareId] at hmem
  rcases h : (runRefs (exportRefCache inp mode) res.eachRefList).2
      with e | u <;>
    simp [cacheExportPhase, oneOffProgressStart, oneOffProgressDone, h,
      List.countP_append, List.countP_cons, prepareId] <;>
    exact hmem

/-- C3 counterexample: on a concrete failing `ExportTo`, `Solve` propagates
the error, yet no write of the "preparing build cache for export" marker
carries a recorded error — the marker is not marked as failed, so the claim
that the error is recorded on it is false on the code. -/
def cexRes : Result :=
  { ref := some { refId := 1, sys := .workerRef 10, cacheKeys := [5] }
    refs := none, metadata := [] }

/-- Oracles for the counterexample: everything succeeds except `ExportTo`. -/
def cexInp : SolveInputs :=
  { newJob := .ok (), bridgeSolve := .ok cexRes
    exportResult := .ok []
    exportTo := fun _ => .error ("boom"), finalize := .ok () }

/-- A request with only a cache exporter. -/
def cexExp : ExporterRequest :=
  { exporterName := none, cacheExporter := true, cacheExportMode := 0 }

/-- C3 as stated is false: the error is never recorded on the marker (the
source leaves `// TODO: set error on status`): on this failing input the
propagated error appears on no marker write. -/
theorem cache_export_marker_error_not_recorded :
    (Solve cexInp cexExp).2 = .error (.msg ("boom")) ∧
    ((Solve cexInp cexExp).1).filter
      (fun e => match e with
        | .progressWrite _ ps => ps.error.isSome
        | _ => false) = [] := by
  constructor <;> rfl

/-- C3 (amended): if exporting a reference's cache key fails during cache
export, the remaining references are not processed, the preparation marker
is written as completed — without the error recorded on it — and its writer
closed before the error is propagated; the writer is closed exactly once on
every outcome; and `Solve` returns the `ExportTo` error. -/
theorem cache_export_short_circuit
    (inp : SolveInputs) (exp : ExporterRequest) (res : Result)
    (pre post : List CachedResult) (c : CachedResult) (s : String)
    (st : St) (ctx : Ctx)
    (hj : inp.newJob = .ok ()) (hs : inp.bridgeSolve = .ok res)
    (hce : exp.cacheExporter = true)
    (hcp : contentPhaseOk inp exp res = true)
    (hsplit : res.eachRefList = pre ++ c :: post)
    (hpre : ∀ d ∈ pre, inp.exportTo d.refId = .ok ())
    (hprek : ∀ d ∈ pre, d.cacheKeys ≠ []) (hck : c.cacheKeys ≠ [])
    (hfail : inp.exportTo c.refId = .error s) :
    cacheExportPhase inp exp.cacheExportMode res st ctx =
      ([.progressWrite prepareId
          { started := some st.clock, completed := none, error := none }] ++
        (pre ++ [c]).map (fun d => .exportToCall d.refId d.cacheKeys.headI
          { convert := .workerRefConverter, mode := exp.cacheExportMode }) ++
        [.progressWrite prepareId
          { started := some st.clock, completed := some (st.clock + 1),
            error := none },
         .pwClose prepareId],
        .error (.msg s), { st with clock := st.clock + 2 }) ∧
    (∀ inp2 mode2 st2 ctx2,
      ((cacheExportPhase inp2 mode2 res st2 ctx2).1).countP
        (fun e => e = .pwClose prepareId) = 1) ∧
    (Solve inp exp).2 = .error (.msg s) := by
  have hrun := runRefs_fail inp exp.cacheExportMode pre post c s
    hpre hprek hck hfail
  refine ⟨?_, ?_, ?_⟩
  · simp only [cacheExportPhase, hsplit, hrun, oneOffProgressStart,
      oneOffProgressDone]
  · intro inp2 mode2 st2 ctx2
    exact cacheExportPhase_closes_marker inp2 mode2 res st2 ctx2
  · refine solve_cache_error inp exp res (.msg s) hj hs hce hcp ?_
    rw [hsplit, hrun]

/-! ## C4: the vertex-wrapped phase runner -/

/-- C4: for every invocation of the vertex-wrapped phase runner, a fresh
vertex identity is generated (the identity counter's current value, which
the phase sees consumed), a started write is emitted with the start
timestamp set, cached false and completion nil, the phase function is
invoked with the derived child context (tagged with the vertex identity),
then a completed write is emitted regardless of the phase's outcome —
carrying the phase's error message exactly when it errs and the empty
string otherwise — and the phase's error is returned unchanged. -/
theorem inVertexContext_contract (st : St) (ctx : Ctx) (name : String)
    (f : Phase) :
    (inVertexContext st ctx name f).2.1 =
      (f { clock := st.clock + 1, nextId := st.nextId + 1 }
        (ctx ++ [("vertex", st.nextId)])).2.1 ∧
    (inVertexContext st ctx name f).1 =
      [Event.vertexWrite
         { digest := st.nextId, name := name, started := some st.clock,
           completed := none, cached := false, error := "" },
       Event.pwClose (toString st.nextId)] ++
      (f { clock := st.clock + 1, nextId := st.nextId + 1 }
        (ctx ++ [("vertex", st.nextId)])).1 ++
      [Event.vertexWrite
         { digest := st.nextId, name := name, started := some st.clock,
           completed := some (f { clock := st.clock + 1, nextId := st.nextId + 1 }
             (ctx ++ [("vertex", st.nextId)])).2.2.clock,
           cached := false,
           error :=
             match errOpt (f { clock := st.clock + 1, nextId := st.nextId + 1 }
               (ctx ++ [("vertex", st.nextId)])).2.1 with
             | some e => e.message
             | none => "" },
       Event.pwClose (toString st.nextId), Event.pwClose (toString st.nextId)] := by
  constructor
  · simp [inVertexContext, notifyStarted, notifyCompleted]
  · rcases h : errOpt (f { clock := st.clock + 1, nextId := st.nextId + 1 }
        (ctx ++ [("vertex", st.nextId)])).2.1 with _ | e0 <;>
      simp [inVertexContext, notifyStarted, notifyCompleted, h]

/-! ## Concrete scenarios and witnesses -/

/-- A two-reference result (one named entry nil) for concrete runs. -/
def exRes : Result :=
  { ref := some { refId := 1, sys := .workerRef 10, cacheKeys := [5, 6] }
    refs := some [("a", none),
      ("b", some { refId := 2, sys := .workerRef 20, cacheKeys := [7] })]
    metadata := [] }

/-- Oracles where every collaborator succeeds. -/
def exInp : SolveInputs :=
  { newJob := .ok (), bridgeSolve := .ok exRes
    exportResult := .ok [("k", "v")]
    exportTo := fun _ => .ok (), finalize := .ok () }

/-- A request with a content exporter named "image" and a cache exporter. -/
def exExp : ExporterRequest :=
  { exporterName := some ("image"), cacheExporter := true,
    cacheExportMode := 3 }

/-- A request with neither exporter. -/
def exExpNone : ExporterRequest :=
  { exporterName := none, cacheExporter := false, cacheExportMode := 0 }

/-- A result whose primary reference is not a worker ref. -/
def exResBad : Result :=
  { ref := some { refId := 1, sys := .other ("*foo.Bar"), cacheKeys := [] }
    refs := none, metadata := [] }

/-- Oracles yielding the invalid result. -/
def exInpBad : SolveInputs := { exInp with bridgeSolve := .ok exResBad }

/-- Oracles where the bridge's solve fails. -/
def exInpSolveFail : SolveInputs :=
  { exInp with bridgeSolve := .error ("solve failed") }

theorem solve_schedules_each_release_once_witness :
    ((Solve exInp exExp).1).filter isRelease = releaseEvents exRes :=
  solve_schedules_each_release_once exInp exExp exRes rfl rfl

theorem solve_cache_export_calls_witness :
    ((Solve exInp exExp).1).countP isExportTo ≤ exRes.eachRefList.length ∧
    ((Solve exInp exExp).1).filter isExportTo =
      exRes.eachRefList.map (fun c => .exportToCall c.refId c.cacheKeys.headI
        { convert := .workerRefConverter, mode := 3 }) := by
  obtain ⟨h1, h2⟩ := solve_cache_export_calls exInp exExp exRes rfl rfl rfl
    (by decide)
  exact ⟨h1, h2 rfl (fun c _ => rfl)⟩

theorem cache_export_short_circuit_witness :
    cacheExportPhase cexInp 0 cexRes { clock := 0, nextId := 0 } [] =
      ([.progressWrite prepareId
          { started := some 0, completed := none, error := none }] ++
        [.exportToCall 1 5 { convert := .workerRefConverter, mode := 0 }] ++
        [.progressWrite prepareId
          { started := some 0, completed := some 1, error := none },
         .pwClose prepareId],
        .error (.msg ("boom")), { clock := 2, nextId := 0 }) ∧
    (Solve cexInp cexExp).2 = .error (.msg ("boom")) := by
  obtain ⟨h1, _, h3⟩ := cache_export_short_circuit cexInp cexExp cexRes [] []
    { refId := 1, sys := .workerRef 10, cacheKeys := [5] } "boom"
    { clock := 0, nextId := 0 } [] rfl rfl rfl rfl rfl (by simp) (by simp)
    (by decide) rfl
  exact ⟨h1, h3⟩

theorem solve_invalid_ref_type_witness :
    (∃ t, (Solve exInpBad exExp).2 = .error (.msg (invalidRefMsg ++ t))) ∧
    ((Solve exInpBad exExp).1).filter isExportCall = [] ∧
    ((Solve exInpBad exExp).1).filter isVertexWrite = [] :=
  solve_invalid_ref_type exInpBad exExp exResBad "image" rfl rfl rfl rfl

theorem solve_no_exporters_empty_response_witness :
    Solve exInp exExpNone =
      (releaseEvents exRes ++ [Event.jobDiscard],
        .ok { exporterResponse := [] }) :=
  solve_no_exporters_empty_response exInp exExpNone exRes rfl rfl rfl rfl

theorem solve_discard_every_exit_witness :
    (∃ pre, (Solve exInpSolveFail exExp).1 = pre ++ [Event.jobDiscard] ∧
      Event.jobDiscard ∉ pre) ∧
    (∀ e, exInpSolveFail.bridgeSolve = .error e →
      Solve exInpSolveFail exExp = ([Event.jobDiscard], .error (.msg e))) :=
  solve_discard_every_exit exInpSolveFail exExp rfl

theorem status_not_found_witness :
    Status [] ("nope") = ([], .error (.msg ("no such job " ++ "nope"))) ∧
    (Status [] ("nope")).2 = (solverGet [] ("nope")).map (fun _ => ()) :=
  status_not_found [] ("nope") rfl

/-- The export source built from `exRes`. -/
def exSrc : Source :=
  { metadata := [], ref := some 10,
    refs := some [("a", none), ("b", some 20)] }

theorem solve_nil_named_ref_passthrough_witness :
    buildSource exRes = .ok exSrc ∧
    ((Solve exInp exExp).1).filter isExportCall = [.exportCall exSrc] := by
  obtain ⟨h1, h2, h3⟩ := solve_nil_named_ref_passthrough exInp exExp exRes
    ("image")
    [("a", none), ("b", some { refId := 2, sys := .workerRef 20, cacheKeys := [7] })]
    rfl rfl rfl rfl rfl
  exact ⟨h1, h3 _ h1⟩

theorem cacheKeys_first_access_witness :
    (∀ s, (runRefs (exportRefCache exInp 3) exRes.eachRefList).2 ≠
      .error (.panic s)) ∧
    exportRefCache exInp 3 { refId := 0, sys := .workerRef 0, cacheKeys := [] }
      = ([], .error (.panic ("index out of range"))) :=
  cacheKeys_first_access exInp 3 exRes.eachRefList (by decide)

end LLBSolver
